import Mathlib

/-!
# Verification of the pi-media-player repository

Shallow embedding of the two Python services:

* `media_player_service.py` — the Button Dispatcher: a polling loop over a
  fixed GPIO pin → action table, dispatching player calls, with guaranteed
  cleanup in a `finally` block.
* `usb_copy_service.py` — the USB Ingest Watcher: a startup scan plus a
  device-event loop, both invoking `copy_files(mount_point, DEST_DIR)` which
  copies directory entries, skipping any name that already exists at the
  destination.

Side effects are modelled as explicit traces of calls; the Python exception
discipline (`try`/`except`/`finally`, `NameError` on reading an unbound
local) is modelled by explicit success/abort outcomes.
-/

namespace MediaPlayer

/-- A call made on the VLC player handle (`player.stop()`, `player.pause()`,
`player.play()`, `player.set_media(vlc.Media fname)`). -/
inductive PCall where
  | stop
  | pause
  | play
  | setMedia (path : String)
  deriving Repr, DecidableEq

/-- The player handle's observable state: loaded media and playback status,
as far as the dispatcher can influence it. -/
structure PState where
  media : Option String
  playing : Bool
  paused : Bool
  deriving Repr, DecidableEq

/-- Effect of one player call on the player state.  `stop` halts playback,
`setMedia` replaces the loaded media, `play` starts playback, `pause`
toggles the paused flag (VLC toggle-pause semantics). -/
def applyCall (s : PState) : PCall → PState
  | .stop => { s with playing := false, paused := false }
  | .pause => { s with paused := !s.paused }
  | .play => { s with playing := true, paused := false }
  | .setMedia p => { s with media := some p }

/-- Make one player call: new state plus the one-element trace. -/
def emit (s : PState) (c : PCall) : PState × List PCall :=
  (applyCall s c, [c])

/-- `play_video(player, fname)`: `player.stop()`, then
`player.set_media(vlc.Media(fname))`, then `player.play()`. -/
def play_video (s : PState) (fname : String) : PState × List PCall :=
  let r1 := emit s .stop
  let r2 := emit r1.1 (.setMedia fname)
  let r3 := emit r2.1 .play
  (r3.1, r1.2 ++ r2.2 ++ r3.2)

/-- The `BUTTON_PINS` table of `media_player_service.py`, in the
dictionary's insertion order: BCM pin number paired with the bound action
string (a media path, or the literal `"pause"` / `"stop"`). -/
def BUTTON_PINS : List (Nat × String) :=
  [ (13, "/home/pi/Videos/1.mp4")
  , (19, "/home/pi/Videos/2.mp4")
  , (26, "/home/pi/Videos/3.mp4")
  , (21, "/home/pi/Videos/4.mp4")
  , (20, "pause")
  , (16, "stop") ]

/-- The body of the dispatch conditional in `main`: `"pause"` toggles pause,
`"stop"` stops, anything else is treated as a media path for `play_video`. -/
def dispatchAction (s : PState) (action : String) : PState × List PCall :=
  if action == "pause" then emit s .pause
  else if action == "stop" then emit s .stop
  else play_video s action

/-- One pass of the inner `for pin, action in BUTTON_PINS.items()` loop.
`levels pin = true` models `GPIO.input(pin) == GPIO.LOW` (pressed, since the
inputs are pulled up).  Each pressed pin dispatches its bound action in
table order; the debounce sleep has no effect on the trace. -/
def scanPass (levels : Nat → Bool) : PState → List (Nat × String) → PState × List PCall
  | s, [] => (s, [])
  | s, (pin, action) :: rest =>
    if levels pin then
      let r1 := dispatchAction s action
      let r2 := scanPass levels r1.1 rest
      (r2.1, r1.2 ++ r2.2)
    else
      scanPass levels s rest

/-- `n` consecutive iterations of the outer `while True` loop under a fixed
level reading (a steadily held button). -/
def runPasses (levels : Nat → Bool) : Nat → PState → PState × List PCall
  | 0, s => (s, [])
  | n + 1, s =>
    let r1 := scanPass levels s BUTTON_PINS
    let r2 := runPasses levels n r1.1
    (r2.1, r1.2 ++ r2.2)

/-! ## The `main` function's exit paths and its `finally` cleanup -/

/-- The ways `main`'s `try` body can end (the `while True` loop never
returns normally). -/
inductive ExitPath where
  | gpioSetupFail      -- `setup_gpio()` raises
  | playerSetupFail    -- `setup_media_player()` raises
  | loopInterrupt      -- `KeyboardInterrupt` during the loop
  | loopError          -- any other `Exception` during the loop
  deriving Repr, DecidableEq

/-- Whether the local variable `media_player` has been assigned when the
`finally` block runs: the assignment happens only after `setup_gpio()` and
`setup_media_player()` both return. -/
def mediaPlayerBound : ExitPath → Bool
  | .gpioSetupFail => false
  | .playerSetupFail => false
  | .loopInterrupt => true
  | .loopError => true

/-- Whether `main` reaches the `while True` loop on this exit path. -/
def enteredLoop : ExitPath → Bool
  | .gpioSetupFail => false
  | .playerSetupFail => false
  | .loopInterrupt => true
  | .loopError => true

/-- Observable cleanup effects in `main`'s `finally` block. -/
inductive CleanupEffect where
  | playerStop       -- `media_player.stop()`
  | gpioCleanup      -- `GPIO.cleanup()`
  | logDone          -- `logger.info("Cleanup complete")`
  deriving Repr, DecidableEq

/-- The statements of the `finally` block, in source order. -/
def finallyStmts : List CleanupEffect :=
  [.playerStop, .gpioCleanup, .logDone]

/-- Execute one `finally`-block statement.  Reading the local
`media_player` when it was never assigned raises `NameError`
(Python `UnboundLocalError`), modelled as `none`; the other statements
always succeed. -/
def execCleanupStmt (bound : Bool) : CleanupEffect → Option CleanupEffect
  | .playerStop => if bound then some .playerStop else none
  | .gpioCleanup => some .gpioCleanup
  | .logDone => some .logDone

/-- Run a block of statements in order; an exception aborts the rest of the
block and escapes.  Returns the effects performed and whether an uncaught
exception escaped. -/
def runBlock (bound : Bool) : List CleanupEffect → List CleanupEffect × Bool
  | [] => ([], false)
  | s :: rest =>
    match execCleanupStmt bound s with
    | some e =>
      let r := runBlock bound rest
      (e :: r.1, r.2)
    | none => ([], true)

/-- The cleanup `main` actually performs on a given exit path: the
`except` clauses catch every `try`-body outcome, then the `finally` block
runs with `media_player` bound or not.  Result: effects performed, and
whether an exception escapes `main`. -/
def mainCleanup (p : ExitPath) : List CleanupEffect × Bool :=
  runBlock (mediaPlayerBound p) finallyStmts

end MediaPlayer

namespace UsbCopy

/-- A filesystem entry: a regular file with its byte content, or a
directory with its children (an association list of name → entry, in
listing order; real directory listings have pairwise distinct names). -/
inductive Entry where
  | file (content : String)
  | dir (children : List (String × Entry))
  deriving Repr

/-- Directory contents: name → entry association list. -/
abbrev Dir := List (String × Entry)

/-- `os.path.exists(dst/name)` / `os.listdir` lookup on a directory. -/
def lookup : Dir → String → Option Entry
  | [], _ => none
  | (n, e) :: rest, name => if n == name then some e else lookup rest name

/-- Write an entry under a name: replaces an existing binding in place,
otherwise appends (a fresh filesystem entry). -/
def setEntry : Dir → String → Entry → Dir
  | [], name, e => [(name, e)]
  | (n, e0) :: rest, name, e =>
    if n == name then (n, e) :: rest else (n, e0) :: setEntry rest name e

/-- The children of the directory at `name` in `d`, if any
(what `shutil.copytree` with `dirs_exist_ok=True` merges into). -/
def childrenAt (d : Dir) (name : String) : Dir :=
  match lookup d name with
  | some (.dir cs) => cs
  | _ => []

/-- `shutil.copytree(src, dst, dirs_exist_ok=True)`: walk the source
children in order; a file is copied with `shutil.copy2` (overwriting any
destination file of that name), a directory recurses with
`dirs_exist_ok=True`, merging into an existing destination subdirectory. -/
def copytree : Dir → Dir → Dir
  | [], dst => dst
  | (name, .file c) :: rest, dst =>
    copytree rest (setEntry dst name (.file c))
  | (name, .dir cs) :: rest, dst =>
    copytree rest (setEntry dst name (.dir (copytree cs (childrenAt dst name))))

/-- `copy_files(src, dst)` of `usb_copy_service.py`, successful run: for
each entry of `os.listdir(src)` in order, skip it when `os.path.exists`
reports the name already present under `dst` (whether file or directory);
otherwise `shutil.copy2` a file or `shutil.copytree(..., dirs_exist_ok)`
a directory. -/
def copy_files : Dir → Dir → Dir
  | [], dst => dst
  | (name, .file c) :: rest, dst =>
    if (lookup dst name).isSome then copy_files rest dst
    else copy_files rest (setEntry dst name (.file c))
  | (name, .dir cs) :: rest, dst =>
    if (lookup dst name).isSome then copy_files rest dst
    else copy_files rest (setEntry dst name (.dir (copytree cs (childrenAt dst name))))

/-- `copy_files` under a fault model: copying the entry named `name` may
raise (`fails name = true`, e.g. an I/O error in `copy2`/`copytree`).  The
`try` wraps the whole loop, and the `except` clause catches the exception,
prints, and falls off the end of the function — so the first failure
returns the destination as accumulated so far.  Skipped entries perform no
copy and cannot fail. -/
def copy_filesErr (fails : String → Bool) : Dir → Dir → Dir
  | [], dst => dst
  | (name, .file c) :: rest, dst =>
    if (lookup dst name).isSome then copy_filesErr fails rest dst
    else if fails name then dst
    else copy_filesErr fails rest (setEntry dst name (.file c))
  | (name, .dir cs) :: rest, dst =>
    if (lookup dst name).isSome then copy_filesErr fails rest dst
    else if fails name then dst
    else copy_filesErr fails rest (setEntry dst name (.dir (copytree cs (childrenAt dst name))))

/-- Pairwise-distinct names, as a real directory listing guarantees. -/
def nodupKeys : List String → Bool
  | [] => true
  | k :: rest => !(rest.any (fun x => x == k)) && nodupKeys rest

mutual

/-- A well-formed filesystem entry: every directory in the tree lists
pairwise-distinct names (true of any real on-disk tree). -/
def wfEntry : Entry → Bool
  | .file _ => true
  | .dir cs => nodupKeys (cs.map Prod.fst) && wfChildren cs

/-- All entries of a directory listing are well formed. -/
def wfChildren : List (String × Entry) → Bool
  | [] => true
  | (_, e) :: rest => wfEntry e && wfChildren rest

end

/-! ## The watcher's two entry points -/

/-- The fixed destination directory `DEST_DIR = Path("/home/apex")`. -/
def DEST_DIR : String := "/home/apex"

/-- A pyudev device as the watcher reads it: the `ID_BUS` property, the
`MEDIA_MNT` property, and the uevent action. -/
structure Device where
  idBus : Option String
  mediaMnt : Option String
  action : Option String
  deriving Repr, DecidableEq

/-- `get_mount_point(device)`: `device.get('MEDIA_MNT', None)`. -/
def get_mount_point (d : Device) : Option String := d.mediaMnt

/-- Python truthiness of an optional string: `None` and `""` are falsy. -/
def pyTruthy : Option String → Bool
  | none => false
  | some s => !(s == "")

/-- An invocation of the copy operation with its two arguments. -/
inductive CopyCall where
  | copy (src : String) (dst : String)
  deriving Repr, DecidableEq

/-- The startup-scan body of `main`, per enumerated device: if
`device.get('ID_BUS') == 'usb' and device.get('MEDIA_MNT')`, take
`mount_point = get_mount_point(device)`, and if `mount_point` is truthy,
call `copy_files(mount_point, DEST_DIR)`. -/
def startupScan (d : Device) : Option CopyCall :=
  if d.idBus == some "usb" && pyTruthy d.mediaMnt then
    if pyTruthy (get_mount_point d) then
      some (.copy ((get_mount_point d).getD "") DEST_DIR)
    else none
  else none

/-- The event-loop body of `main`, per monitored device: if
`device.get('ID_BUS') == 'usb' and device.action == 'add'`, sleep one
second, take `mount_point = get_mount_point(device)`, and if truthy, call
`copy_files(mount_point, DEST_DIR)`. -/
def eventArrival (d : Device) : Option CopyCall :=
  if d.idBus == some "usb" && d.action == some "add" then
    if pyTruthy (get_mount_point d) then
      some (.copy ((get_mount_point d).getD "") DEST_DIR)
    else none
  else none

end UsbCopy

/-! # Theorems

First the Button Dispatcher (`media_player_service.py`), then the USB
Ingest Watcher (`usb_copy_service.py`). -/

namespace MediaPlayer

/-- The trace of one dispatch does not depend on the player state: it is
determined by the action string alone. -/
lemma dispatchAction_snd (s : PState) (a : String) :
    (dispatchAction s a).2 =
      if a == "pause" then [PCall.pause]
      else if a == "stop" then [PCall.stop]
      else [PCall.stop, PCall.setMedia a, PCall.play] := by
  by_cases h1 : a == "pause"
  · simp [dispatchAction, emit, h1]
  · by_cases h2 : a == "stop" <;>
      simp [dispatchAction, emit, play_video, h1, h2]

lemma dispatchAction_snd_const (s t : PState) (a : String) :
    (dispatchAction s a).2 = (dispatchAction t a).2 := by
  rw [dispatchAction_snd, dispatchAction_snd]

/-- A scan pass in which exactly one pin reads low performs exactly that
pin's bound dispatch (state and trace). -/
lemma scanPass_single (pin : Nat) (action : String) (s : PState)
    (h : (pin, action) ∈ BUTTON_PINS) :
    scanPass (fun q => q == pin) s BUTTON_PINS = dispatchAction s action := by
  simp only [BUTTON_PINS, List.mem_cons, List.not_mem_nil, or_false,
    Prod.mk.injEq] at h
  rcases h with ⟨rfl, rfl⟩ | ⟨rfl, rfl⟩ | ⟨rfl, rfl⟩ | ⟨rfl, rfl⟩ |
    ⟨rfl, rfl⟩ | ⟨rfl, rfl⟩ <;>
    simp [scanPass, BUTTON_PINS]

/-- C3: for every path and every prior player state, dispatching
load-and-play (`play_video`) makes exactly the calls stop, then set-media,
then play on the player handle, in that order. -/
theorem play_video_stop_load_play (s : PState) (fname : String) :
    (play_video s fname).2 = [PCall.stop, PCall.setMedia fname, PCall.play] :=
  rfl

/-- C9: the dispatcher classifies actions by string equality only — any
bound string other than the literals `"pause"` and `"stop"` is dispatched
as load-and-play with that string used as the media path, with no further
validation. -/
theorem dispatch_default_loads_string_as_path (s : PState) (a : String)
    (hp : a ≠ "pause") (hs : a ≠ "stop") :
    (dispatchAction s a).2 = [PCall.stop, PCall.setMedia a, PCall.play] := by
  rw [dispatchAction_snd]
  simp [hp, hs]

/-- Witness for C9 at a concrete non-path, non-literal string. -/
theorem dispatch_default_loads_string_as_path_witness :
    ("definitely not a file" ≠ "pause" ∧ "definitely not a file" ≠ "stop") ∧
    (dispatchAction ⟨none, false, false⟩ "definitely not a file").2
      = [PCall.stop, PCall.setMedia "definitely not a file", PCall.play] :=
  ⟨⟨by decide, by decide⟩,
    dispatch_default_loads_string_as_path ⟨none, false, false⟩
      "definitely not a file" (by decide) (by decide)⟩

/-- C4: for each of the six configured inputs, a scan pass that reads that
input (and only it) as pressed performs exactly the dispatch of the action
bound to it in `BUTTON_PINS`, and no other call. -/
theorem pressed_input_fires_bound_action (pin : Nat) (action : String)
    (s : PState) (h : (pin, action) ∈ BUTTON_PINS) :
    (scanPass (fun q => q == pin) s BUTTON_PINS).2
      = (dispatchAction s action).2 := by
  rw [scanPass_single pin action s h]

/-- Witness for C4 at pin 20, bound to `"pause"`. -/
theorem pressed_input_fires_bound_action_witness :
    (20, "pause") ∈ BUTTON_PINS ∧
    (scanPass (fun q => q == 20) ⟨none, false, false⟩ BUTTON_PINS).2
      = (dispatchAction ⟨none, false, false⟩ "pause").2 :=
  ⟨by decide,
    pressed_input_fires_bound_action 20 "pause" ⟨none, false, false⟩
      (by decide)⟩

/-- C5: the dispatcher keeps no per-input debounce or edge-detection
state — an input held pressed across `n` consecutive scan passes fires its
bound dispatch once per pass, `n` times in total. -/
theorem held_button_fires_once_per_pass (n : Nat) (pin : Nat)
    (action : String) (s : PState) (h : (pin, action) ∈ BUTTON_PINS) :
    (runPasses (fun q => q == pin) n s).2
      = (List.replicate n ((dispatchAction s action).2)).flatten := by
  induction n generalizing s with
  | zero => rfl
  | succ k ih =>
    simp only [runPasses, scanPass_single pin action s h,
      List.replicate_succ, List.flatten_cons]
    rw [ih ((dispatchAction s action).1),
      dispatchAction_snd_const ((dispatchAction s action).1) s action]

/-- Witness for C5: pin 13 held for three passes fires its load-and-play
three times, matching the spec's scenario. -/
theorem held_button_fires_once_per_pass_witness :
    (13, "/home/pi/Videos/1.mp4") ∈ BUTTON_PINS ∧
    (runPasses (fun q => q == 13) 3 ⟨none, false, false⟩).2
      = (List.replicate 3
          ((dispatchAction ⟨none, false, false⟩ "/home/pi/Videos/1.mp4").2)).flatten :=
  ⟨by decide,
    held_button_fires_once_per_pass 3 13 "/home/pi/Videos/1.mp4"
      ⟨none, false, false⟩ (by decide)⟩

/-- C1 (code bug): on the exit path where `setup_gpio()` raises, `main`
never enters the loop, and the `finally` block performs **no** cleanup at
all — reading the never-assigned local `media_player` raises `NameError`,
which aborts the block before `GPIO.cleanup()` and escapes `main` — while
on the loop exit paths (interrupt or loop error) both cleanup calls do
run.  The spec's guarantee that GPIO release is attempted on every exit
path therefore fails exactly on the setup-failure paths. -/
theorem main_setup_fail_skips_all_cleanup :
    (enteredLoop .gpioSetupFail = false ∧
      mainCleanup .gpioSetupFail = ([], true) ∧
      CleanupEffect.gpioCleanup ∉ (mainCleanup .gpioSetupFail).1) ∧
    mainCleanup .loopInterrupt
      = ([.playerStop, .gpioCleanup, .logDone], false) ∧
    mainCleanup .loopError
      = ([.playerStop, .gpioCleanup, .logDone], false) := by
  decide

end MediaPlayer

namespace UsbCopy

lemma lookup_setEntry_self (d : Dir) (name : String) (e : Entry) :
    lookup (setEntry d name e) name = some e := by
  induction d with
  | nil => simp [setEntry, lookup]
  | cons p rest ih =>
    obtain ⟨n, e0⟩ := p
    by_cases h : n == name
    · simp [setEntry, lookup, h]
    · simp [setEntry, lookup, h, ih]

lemma lookup_setEntry_ne (d : Dir) (name other : String) (e : Entry)
    (h : other ≠ name) :
    lookup (setEntry d name e) other = lookup d other := by
  induction d with
  | nil => simp [setEntry, lookup, Ne.symm h]
  | cons p rest ih =>
    obtain ⟨n, e0⟩ := p
    by_cases hn : n == name
    · have : n = name := by simpa using hn
      subst this
      simp [setEntry, lookup, Ne.symm h]
    · by_cases ho : n == other <;> simp [setEntry, lookup, hn, ho, ih]

/-- Everything already present under the destination survives a
`copy_files` run with the same name and the very same entry. -/
lemma copy_files_preserves (src : Dir) :
    ∀ (dst : Dir) (name : String) (v : Entry), lookup dst name = some v →
      lookup (copy_files src dst) name = some v := by
  induction src with
  | nil => intro dst name v h; simpa [copy_files] using h
  | cons p rest ih =>
    obtain ⟨n, e⟩ := p
    intro dst name v h
    cases e with
    | file c =>
      by_cases hc : (lookup dst n).isSome
      · rw [copy_files, if_pos hc]
        exact ih dst name v h
      · have hne : name ≠ n := by
          intro hEq; subst hEq; rw [h] at hc; exact hc rfl
        rw [copy_files, if_neg hc]
        exact ih _ name v (by rw [lookup_setEntry_ne _ _ _ _ hne]; exact h)
    | dir cs =>
      by_cases hc : (lookup dst n).isSome
      · rw [copy_files, if_pos hc]
        exact ih dst name v h
      · have hne : name ≠ n := by
          intro hEq; subst hEq; rw [h] at hc; exact hc rfl
        rw [copy_files, if_neg hc]
        exact ih _ name v (by rw [lookup_setEntry_ne _ _ _ _ hne]; exact h)

/-- C6: for every entry name present in both the source and the
destination, `copy_files` leaves the destination's entry for that name
exactly as it was — skip-if-exists, no overwrite, no merge. -/
theorem copy_skips_entries_present_in_both (src dst : Dir) (name : String)
    (v : Entry) (hdst : lookup dst name = some v)
    (_hsrc : name ∈ src.map Prod.fst) :
    lookup (copy_files src dst) name = some v :=
  copy_files_preserves src dst name v hdst

/-- Witness for C6: `b.txt` exists in both with a sentinel destination
content differing from the source's; it survives untouched. -/
theorem copy_skips_entries_present_in_both_witness :
    (lookup [("b.txt", Entry.file "sentinel")] "b.txt"
        = some (Entry.file "sentinel") ∧
      "b.txt" ∈ ([("a.txt", Entry.file "new"), ("b.txt", Entry.file "src")]
          : Dir).map Prod.fst) ∧
    lookup (copy_files [("a.txt", Entry.file "new"), ("b.txt", Entry.file "src")]
        [("b.txt", Entry.file "sentinel")]) "b.txt"
      = some (Entry.file "sentinel") :=
  ⟨⟨rfl, by simp⟩,
    copy_skips_entries_present_in_both
      [("a.txt", Entry.file "new"), ("b.txt", Entry.file "src")]
      [("b.txt", Entry.file "sentinel")] "b.txt" (Entry.file "sentinel")
      rfl (by simp)⟩

/-- C10: `copy_files` only ever adds entries — every name bound under the
destination before the call is bound to the very same entry (hence the
same entire subtree and content) afterwards, whether or not the source
also carries that name. -/
theorem copy_files_only_adds (src dst : Dir) (name : String) (v : Entry)
    (h : lookup dst name = some v) :
    lookup (copy_files src dst) name = some v :=
  copy_files_preserves src dst name v h

/-- Witness for C10: a pre-existing destination directory not named in the
source survives unchanged. -/
theorem copy_files_only_adds_witness :
    lookup [("keep", Entry.dir [("x", Entry.file "1")])] "keep"
        = some (Entry.dir [("x", Entry.file "1")]) ∧
    lookup (copy_files [("new.bin", Entry.file "data")]
        [("keep", Entry.dir [("x", Entry.file "1")])]) "keep"
      = some (Entry.dir [("x", Entry.file "1")]) :=
  ⟨rfl,
    copy_files_only_adds [("new.bin", Entry.file "data")]
      [("keep", Entry.dir [("x", Entry.file "1")])] "keep"
      (Entry.dir [("x", Entry.file "1")]) rfl⟩

/-- C7: any error during a `copy_files` invocation is caught at the top
level and the function returns early without re-raising: the run under the
fault model is a total function whose result is exactly a faultless
`copy_files` run over some prefix of the source listing (the entries
already copied remain; nothing is rolled back), and the remaining suffix,
if non-empty, starts with the entry whose copy raised. -/
theorem copy_files_error_is_caught_partial (fails : String → Bool)
    (src : Dir) : ∀ dst : Dir,
    ∃ p s : Dir, src = p ++ s ∧
      copy_filesErr fails src dst = copy_files p dst ∧
      (s = [] ∨ ∃ name e rest, s = (name, e) :: rest ∧ fails name = true ∧
        lookup (copy_files p dst) name = none) := by
  induction src with
  | nil =>
    intro dst
    exact ⟨[], [], rfl, rfl, Or.inl rfl⟩
  | cons q rest ih =>
    obtain ⟨n, e⟩ := q
    intro dst
    by_cases hc : (lookup dst n).isSome
    · obtain ⟨p, s, hsplit, hres, hcond⟩ := ih dst
      refine ⟨(n, e) :: p, s, by rw [hsplit]; rfl, ?_, ?_⟩
      · cases e with
        | file c =>
          rw [copy_filesErr, if_pos hc, copy_files, if_pos hc, hres]
        | dir cs =>
          rw [copy_filesErr, if_pos hc, copy_files, if_pos hc, hres]
      · rcases hcond with h0 | ⟨name, e0, r0, hs, hf, hl⟩
        · exact Or.inl h0
        · refine Or.inr ⟨name, e0, r0, hs, hf, ?_⟩
          cases e with
          | file c => rw [copy_files, if_pos hc]; exact hl
          | dir cs => rw [copy_files, if_pos hc]; exact hl
    · by_cases hf : fails n
      · refine ⟨[], (n, e) :: rest, rfl, ?_, Or.inr ⟨n, e, rest, rfl, hf, ?_⟩⟩
        · cases e with
          | file c => rw [copy_filesErr, if_neg hc, if_pos hf]; rfl
          | dir cs => rw [copy_filesErr, if_neg hc, if_pos hf]; rfl
        · rw [copy_files]
          exact Option.not_isSome_iff_eq_none.mp hc
      · cases e with
        | file c =>
          obtain ⟨p, s, hsplit, hres, hcond⟩ := ih (setEntry dst n (.file c))
          refine ⟨(n, .file c) :: p, s, by rw [hsplit]; rfl, ?_, ?_⟩
          · rw [copy_filesErr, if_neg hc, if_neg hf, copy_files, if_neg hc, hres]
          · rcases hcond with h0 | ⟨name, e0, r0, hs, hff, hl⟩
            · exact Or.inl h0
            · refine Or.inr ⟨name, e0, r0, hs, hff, ?_⟩
              rw [copy_files, if_neg hc]; exact hl
        | dir cs =>
          obtain ⟨p, s, hsplit, hres, hcond⟩ :=
            ih (setEntry dst n (.dir (copytree cs (childrenAt dst n))))
          refine ⟨(n, .dir cs) :: p, s, by rw [hsplit]; rfl, ?_, ?_⟩
          · rw [copy_filesErr, if_neg hc, if_neg hf, copy_files, if_neg hc, hres]
          · rcases hcond with h0 | ⟨name, e0, r0, hs, hff, hl⟩
            · exact Or.inl h0
            · refine Or.inr ⟨name, e0, r0, hs, hff, ?_⟩
              rw [copy_files, if_neg hc]; exact hl

/-- C8: when the startup-scan path and the arrival-event path each decide
to copy, and the two devices expose the same mount point, they issue the
very same call, `copy_files(mount_point, DEST_DIR)`: the two entry points
are equivalent copy invocations. -/
lemma startupScan_some (d : Device) (c : CopyCall)
    (h : startupScan d = some c) :
    c = .copy ((get_mount_point d).getD "") DEST_DIR := by
  unfold startupScan at h
  split_ifs at h
  exact (Option.some.inj h).symm

lemma eventArrival_some (d : Device) (c : CopyCall)
    (h : eventArrival d = some c) :
    c = .copy ((get_mount_point d).getD "") DEST_DIR := by
  unfold eventArrival at h
  split_ifs at h
  exact (Option.some.inj h).symm

theorem startup_and_event_issue_same_copy_call (d e : Device)
    (hmp : get_mount_point d = get_mount_point e) (c c2 : CopyCall)
    (hd : startupScan d = some c) (he : eventArrival e = some c2) :
    c = c2 ∧ c = .copy ((get_mount_point d).getD "") DEST_DIR := by
  have h1 := startupScan_some d c hd
  have h2 := eventArrival_some e c2 he
  refine ⟨?_, h1⟩
  rw [h1, h2, hmp]

/-- Witness for C8: a mounted volume seen at startup and the same volume
arriving as an event both produce `copy_files("/media/usb0", DEST_DIR)`. -/
theorem startup_and_event_issue_same_copy_call_witness :
    (get_mount_point ⟨some "usb", some "/media/usb0", none⟩
        = get_mount_point ⟨some "usb", some "/media/usb0", some "add"⟩ ∧
      startupScan ⟨some "usb", some "/media/usb0", none⟩
        = some (.copy "/media/usb0" DEST_DIR) ∧
      eventArrival ⟨some "usb", some "/media/usb0", some "add"⟩
        = some (.copy "/media/usb0" DEST_DIR)) ∧
    (CopyCall.copy "/media/usb0" DEST_DIR = CopyCall.copy "/media/usb0" DEST_DIR ∧
      CopyCall.copy "/media/usb0" DEST_DIR
        = .copy ((get_mount_point ⟨some "usb", some "/media/usb0", none⟩).getD "")
            DEST_DIR) :=
  ⟨⟨rfl, rfl, rfl⟩,
    startup_and_event_issue_same_copy_call
      ⟨some "usb", some "/media/usb0", none⟩
      ⟨some "usb", some "/media/usb0", some "add"⟩ rfl
      (.copy "/media/usb0" DEST_DIR) (.copy "/media/usb0" DEST_DIR) rfl rfl⟩

end UsbCopy

namespace UsbCopy

lemma setEntry_absent (d : Dir) (name : String) (e : Entry)
    (h : lookup d name = none) :
    setEntry d name e = d ++ [(name, e)] := by
  induction d with
  | nil => rfl
  | cons p rest ih =>
    obtain ⟨n, e0⟩ := p
    by_cases hn : n == name
    · rw [lookup, if_pos hn] at h; cases h
    · rw [lookup, if_neg hn] at h
      rw [setEntry, if_neg hn, List.cons_append, ih h]

lemma childrenAt_none (d : Dir) (name : String) (h : lookup d name = none) :
    childrenAt d name = [] := by
  rw [childrenAt, h]

lemma nodupKeys_cons (k : String) (ks : List String)
    (h : nodupKeys (k :: ks) = true) :
    (∀ x ∈ ks, x ≠ k) ∧ nodupKeys ks = true := by
  simp only [nodupKeys, Bool.and_eq_true, Bool.not_eq_true',
    List.any_eq_false, beq_iff_eq] at h
  exact h

/-- `shutil.copytree` into a destination sharing no names with the source
appends an exact copy of the source listing (for well-formed sources). -/
lemma copytree_disjoint : ∀ src dst : Dir,
    (∀ p ∈ src, lookup dst p.1 = none) →
    nodupKeys (src.map Prod.fst) = true →
    wfChildren src = true →
    copytree src dst = dst ++ src := by
  intro src dst
  induction src, dst using copytree.induct with
  | case1 dst =>
    intro _ _ _
    simp [copytree]
  | case2 name c rest dst ih =>
    intro hd hn hw
    obtain ⟨hnh, hnt⟩ := nodupKeys_cons _ _ (by simpa using hn)
    have habs : lookup dst name = none := hd (name, .file c) (by simp)
    rw [copytree, ih ?_ ?_ ?_, setEntry_absent dst name (.file c) habs]
    · simp
    · intro p hp
      rw [lookup_setEntry_ne dst name p.1 (.file c)
        (hnh p.1 (List.mem_map_of_mem Prod.fst hp))]
      exact hd p (List.mem_cons_of_mem _ hp)
    · simpa using hnt
    · simp only [wfChildren, Bool.and_eq_true] at hw
      exact hw.2
  | case3 name cs rest dst ih1 ih2 =>
    intro hd hn hw
    obtain ⟨hnh, hnt⟩ := nodupKeys_cons _ _ (by simpa using hn)
    have habs : lookup dst name = none := hd (name, .dir cs) (by simp)
    simp only [wfChildren, wfEntry, Bool.and_eq_true] at hw
    obtain ⟨⟨hwn, hwc⟩, hwr⟩ := hw
    have hch : childrenAt dst name = [] := childrenAt_none dst name habs
    have hinner : copytree cs (childrenAt dst name) = cs := by
      rw [hch]
      have hh := ih1 (by intro p _; rw [hch]; rfl) hwn hwc
      rw [hch] at hh
      simpa using hh
    rw [hinner] at ih2
    rw [copytree, hinner, ih2 ?_ ?_ ?_,
      setEntry_absent dst name (.dir cs) habs]
    · simp
    · intro p hp
      rw [lookup_setEntry_ne dst name p.1 (.dir cs)
        (hnh p.1 (List.mem_map_of_mem Prod.fst hp))]
      exact hd p (List.mem_cons_of_mem _ hp)
    · simpa using hnt
    · exact hwr

/-- Copying a well-formed directory into an empty destination reproduces
it exactly. -/
lemma copytree_nil (cs : Dir) (hn : nodupKeys (cs.map Prod.fst) = true)
    (hw : wfChildren cs = true) : copytree cs [] = cs := by
  simpa using copytree_disjoint cs [] (by intro p _; rfl) hn hw

end UsbCopy

namespace UsbCopy

/-- A source directory entry whose name is absent from the destination is
installed by `copy_files` as `copytree` of its children into an empty
directory. -/
lemma copy_files_fresh_dir (src : Dir) : ∀ (dst : Dir) (name : String)
    (cs : Dir), nodupKeys (src.map Prod.fst) = true →
    (name, Entry.dir cs) ∈ src → lookup dst name = none →
    lookup (copy_files src dst) name = some (.dir (copytree cs [])) := by
  induction src with
  | nil =>
    intro _ _ _ _ hmem _
    cases hmem
  | cons p rest ih =>
    obtain ⟨n, e0⟩ := p
    intro dst name cs hn hmem habs
    rcases List.mem_cons.mp hmem with heq | hmem2
    · injection heq with h1 h2
      subst h1
      subst h2
      have hns : ¬(lookup dst name).isSome = true := by
        rw [habs]; simp
      rw [copy_files, if_neg hns, childrenAt_none dst name habs]
      exact copy_files_preserves rest _ name _
        (lookup_setEntry_self dst name _)
    · obtain ⟨hnh, hnt⟩ := nodupKeys_cons _ _ (by simpa using hn)
      have hne : name ≠ n :=
        hnh name (List.mem_map_of_mem Prod.fst hmem2)
      cases e0 with
      | file c =>
        by_cases hc : (lookup dst n).isSome
        · rw [copy_files, if_pos hc]
          exact ih dst name cs (by simpa using hnt) hmem2 habs
        · rw [copy_files, if_neg hc]
          exact ih _ name cs (by simpa using hnt) hmem2
            (by rw [lookup_setEntry_ne dst n name _ hne]; exact habs)
      | dir cs0 =>
        by_cases hc : (lookup dst n).isSome
        · rw [copy_files, if_pos hc]
          exact ih dst name cs (by simpa using hnt) hmem2 habs
        · rw [copy_files, if_neg hc]
          exact ih _ name cs (by simpa using hnt) hmem2
            (by rw [lookup_setEntry_ne dst n name _ hne]; exact habs)

/-- C2 counterexample: the source directory `d` carries `a`, the
destination already has a (partially-existing, here empty) subdirectory
`d` — the claim says `a` is merged into it, but `copy_files` skips `d`
wholesale: the result is the unchanged destination and `d` does not
receive `a`. -/
theorem copy_files_existing_dir_not_merged :
    copy_files [("d", Entry.dir [("a", Entry.file "x")])] [("d", Entry.dir [])]
      = [("d", Entry.dir [])] ∧
    ¬∃ cs, lookup (copy_files [("d", Entry.dir [("a", Entry.file "x")])]
          [("d", Entry.dir [])]) "d" = some (Entry.dir cs) ∧
        lookup cs "a" = some (Entry.file "x") := by
  refine ⟨rfl, ?_⟩
  rintro ⟨cs, hcs, ha⟩
  have h0 : lookup (copy_files [("d", Entry.dir [("a", Entry.file "x")])]
      [("d", Entry.dir [])]) "d" = some (Entry.dir []) := rfl
  rw [h0] at hcs
  injection Option.some.inj hcs with h1
  rw [← h1] at ha
  cases ha

/-- C2 amended: `copy_files` applies skip-if-exists to directories just as
to files.  A source directory entry whose name is absent from the
destination is copied recursively in full; one whose name already exists
under the destination — even a partially-existing subdirectory — is
skipped entirely and receives nothing. -/
theorem copy_dir_skip_or_full_copy (src dst : Dir) (name : String)
    (cs : Dir) (hn : nodupKeys (src.map Prod.fst) = true)
    (hwn : nodupKeys (cs.map Prod.fst) = true)
    (hwc : wfChildren cs = true)
    (hmem : (name, Entry.dir cs) ∈ src) :
    (lookup dst name = none →
      lookup (copy_files src dst) name = some (Entry.dir cs)) ∧
    ∀ v, lookup dst name = some v →
      lookup (copy_files src dst) name = some v := by
  constructor
  · intro habs
    rw [copy_files_fresh_dir src dst name cs hn hmem habs,
      copytree_nil cs hwn hwc]
  · intro v hv
    exact copy_files_preserves src dst name v hv

/-- Witness for C2 amended, at the counterexample's own source listing:
into an empty destination the directory `d` is copied in full, while a
destination that already has `d` keeps its own (empty) version. -/
theorem copy_dir_skip_or_full_copy_witness :
    (nodupKeys (([("d", Entry.dir [("a", Entry.file "x")])] : Dir).map
        Prod.fst) = true ∧
      nodupKeys (([("a", Entry.file "x")] : Dir).map Prod.fst) = true ∧
      wfChildren [("a", Entry.file "x")] = true ∧
      ("d", Entry.dir [("a", Entry.file "x")])
        ∈ ([("d", Entry.dir [("a", Entry.file "x")])] : Dir)) ∧
    lookup (copy_files [("d", Entry.dir [("a", Entry.file "x")])] []) "d"
      = some (Entry.dir [("a", Entry.file "x")]) ∧
    lookup (copy_files [("d", Entry.dir [("a", Entry.file "x")])]
        [("d", Entry.dir [])]) "d" = some (Entry.dir []) :=
  ⟨⟨by simp [nodupKeys], by simp [nodupKeys],
      by simp [wfChildren, wfEntry, nodupKeys], by simp⟩,
    (copy_dir_skip_or_full_copy [("d", Entry.dir [("a", Entry.file "x")])]
        [] "d" [("a", Entry.file "x")] (by simp [nodupKeys])
        (by simp [nodupKeys]) (by simp [wfChildren, wfEntry, nodupKeys])
        (by simp)).1 rfl,
    (copy_dir_skip_or_full_copy [("d", Entry.dir [("a", Entry.file "x")])]
        [("d", Entry.dir [])] "d" [("a", Entry.file "x")]
        (by simp [nodupKeys]) (by simp [nodupKeys])
        (by simp [wfChildren, wfEntry, nodupKeys]) (by simp)).2
      (Entry.dir []) rfl⟩

end UsbCopy
